import Mathlib

/-!
Verification development for the ontology metrics toolkit (`src/main.py`).

The program scans RDF graphs (parsed from Turtle files) and computes one
record of structural and textual metrics per document.  We embed the data
model and each metric-computing function shallowly:

* RDF nodes (`rdflib` `URIRef` / `BNode` / `Literal`) become the inductive
  type `Node`; a literal carries its lexical form and an optional
  language/datatype tag.  `str(node)` in Python returns the underlying
  string for all three kinds, embedded as `Node.toStr`.
* An `rdflib` graph is embedded as a `List Triple`; the pattern iterations
  `g.triples((s?, p?, o?))` become folds over the list guarded by the
  pattern condition.
* Python `dict`s keyed by nodes become association lists with
  update-in-place insertion (first matching key is overwritten, new keys
  are appended), which reproduces `dict` lookup, membership, insertion
  order and length.  Python `set`s become `Finset`s built by folding
  `insert` over the iteration.
* Python `/` on the metric counters (true division producing a float)
  is embedded as exact division on `ℚ`; every guard `if n > 0 else 0`
  is kept verbatim.
* file parsing (`rdflib.Graph.parse`) is an external capability; where a
  function of the source re-parses its `file_path` argument, the embedded
  function receives the parsed graph directly, and `process_ttl_file`
  takes the fallible parser as an explicit `Doc → Option (List Triple)`
  argument.
-/

/-- RDF node: resource reference (IRI), blank node, or literal
(lexical form plus optional language/datatype tag). -/
inductive Node where
  | uri (s : String)
  | bnode (s : String)
  | lit (s : String) (tag : Option String)
deriving DecidableEq, Repr

/-- The string form of a node, as returned by Python `str(...)`:
for all three `rdflib` node kinds this is the bare identifier or
lexical form. -/
def Node.toStr : Node → String
  | .uri s => s
  | .bnode s => s
  | .lit s _ => s

/-- `isinstance(n, URIRef)`. -/
def Node.isURIRef : Node → Bool
  | .uri _ => true
  | _ => false

/-- `isinstance(n, BNode)`. -/
def Node.isBNode : Node → Bool
  | .bnode _ => true
  | _ => false

/-- `isinstance(n, Literal)`. -/
def Node.isLiteral : Node → Bool
  | .lit _ _ => true
  | _ => false

/-- One RDF statement (subject, predicate, object). -/
structure Triple where
  s : Node
  p : Node
  o : Node
deriving DecidableEq, Repr

/-- A graph is embedded as the list of its triples. -/
abbrev Graph := List Triple

/-! Vocabulary constants used by `src/main.py` (`rdflib`'s `RDF`, `RDFS`,
`OWL` namespaces, the `XSD` namespace and the hand-built `rdf:Class`). -/

def rdf_type : Node := .uri "http://www.w3.org/1999/02/22-rdf-syntax-ns#type"

def rdf_Class : Node := .uri "http://www.w3.org/1999/02/22-rdf-syntax-ns#Class"

def rdf_Prop : Node := .uri "http://www.w3.org/1999/02/22-rdf-syntax-ns#Property"

def rdfs_Class : Node := .uri "http://www.w3.org/2000/01/rdf-schema#Class"

def rdfs_subClassOf : Node := .uri "http://www.w3.org/2000/01/rdf-schema#subClassOf"

def rdfs_Datatype : Node := .uri "http://www.w3.org/2000/01/rdf-schema#Datatype"

def rdfs_Resource : Node := .uri "http://www.w3.org/2000/01/rdf-schema#Resource"

def rdfs_Literal : Node := .uri "http://www.w3.org/2000/01/rdf-schema#Literal"

def owl_Class : Node := .uri "http://www.w3.org/2002/07/owl#Class"

def owl_Ontology : Node := .uri "http://www.w3.org/2002/07/owl#Ontology"

def owl_Restriction : Node := .uri "http://www.w3.org/2002/07/owl#Restriction"

def owl_DeprecatedClass : Node := .uri "http://www.w3.org/2002/07/owl#DeprecatedClass"

def owl_ObjectProperty : Node := .uri "http://www.w3.org/2002/07/owl#ObjectProperty"

def owl_TransitiveProperty : Node := .uri "http://www.w3.org/2002/07/owl#TransitiveProperty"

def owl_DatatypeProperty : Node := .uri "http://www.w3.org/2002/07/owl#DatatypeProperty"

def owl_FunctionalProperty : Node := .uri "http://www.w3.org/2002/07/owl#FunctionalProperty"

def owl_DeprecatedProperty : Node := .uri "http://www.w3.org/2002/07/owl#DeprecatedProperty"

def owl_Thing : Node := .uri "http://www.w3.org/2002/07/owl#Thing"

def owl_Nothing : Node := .uri "http://www.w3.org/2002/07/owl#Nothing"

def owl_AnnotationProperty : Node := .uri "http://www.w3.org/2002/07/owl#AnnotationProperty"

def owl_SymmetricProperty : Node := .uri "http://www.w3.org/2002/07/owl#SymmetricProperty"

def owl_InverseFunctionalProperty : Node := .uri "http://www.w3.org/2002/07/owl#InverseFunctionalProperty"

def owl_NamedIndividual : Node := .uri "http://www.w3.org/2002/07/owl#NamedIndividual"

def owl_onDatatype : Node := .uri "http://www.w3.org/2002/07/owl#onDatatype"

/-- The `XSD` namespace string, `str(XSD)` in the source. -/
def xsd_ns : String := "http://www.w3.org/2001/XMLSchema#"

/-- `str(o).startswith(str(XSD))`. -/
def xsdPrefixed (n : Node) : Bool := n.toStr.startsWith xsd_ns

/-- `OWL_EXCLUDES` of `identify_classes`. -/
def OWL_EXCLUDES : List Node :=
  [owl_Ontology, owl_Restriction, owl_DeprecatedClass, owl_ObjectProperty,
   owl_TransitiveProperty, owl_DatatypeProperty, owl_FunctionalProperty,
   owl_DeprecatedProperty, owl_Thing, owl_Nothing, owl_AnnotationProperty,
   owl_SymmetricProperty, owl_InverseFunctionalProperty]

/-- `ADDITIONAL_EXCLUDES` of `identify_classes`: the meta-vocabulary
`rdfs:Class`, `owl:Class`, `rdf:Property`. -/
def ADDITIONAL_EXCLUDES : List Node := [rdfs_Class, owl_Class, rdf_Prop]

/-- The `{RDFS.Datatype, RDFS.Resource, RDFS.Literal}` exclusion set in
rule 4 of `identify_classes`. -/
def RDFS_EXCLUDES : List Node := [rdfs_Datatype, rdfs_Resource, rdfs_Literal]

/-- The classification tag stored by `identify_classes`
(the Python source stores the same information as a string inside
`{"type": ...}`). -/
inductive ClassKind where
  | explicit_owl
  | explicit_rdfs
  | explicit_rdf
  | inferred
deriving DecidableEq, Repr

/-- The `classes` dictionary of `identify_classes`: an association list
with Python-`dict` semantics. -/
abbrev ClassDict := List (Node × ClassKind)

/-- `d[k] = v` on a Python dict: overwrite the first entry with key `k`
(the only one, for dicts built by insertion), otherwise append. -/
def dictInsert : ClassDict → Node → ClassKind → ClassDict
  | [], k, v => [(k, v)]
  | e :: rest, k, v => if e.1 = k then (k, v) :: rest else e :: dictInsert rest k v

/-- `d.get(k)` on a Python dict. -/
def dictLookup : ClassDict → Node → Option ClassKind
  | [], _ => none
  | e :: rest, k => if e.1 = k then some e.2 else dictLookup rest k

/-- `k in d` on a Python dict. -/
def dictContains (d : ClassDict) (k : Node) : Prop := (dictLookup d k).isSome

instance (d : ClassDict) (k : Node) : Decidable (dictContains d k) := by
  unfold dictContains; infer_instance

/-- One of the three explicit-class passes of `identify_classes`
(rules 1–3): iterate `g.triples((None, RDF.type, obj))` and assign
`classes[s] = kind` unless `s` is in `ADDITIONAL_EXCLUDES`.  The three
loops in the source are identical up to `(obj, kind)`. -/
def explicit_class_pass (g : Graph) (obj : Node) (kind : ClassKind) (d : ClassDict) : ClassDict :=
  g.foldl (fun d t =>
    if t.p = rdf_type ∧ t.o = obj then
      if t.s ∈ ADDITIONAL_EXCLUDES then d else dictInsert d t.s kind
    else d) d

/-- Rule 4 of `identify_classes`: iterate `g.triples((None, RDF.type, None))`
and classify the *object* of each typing triple as an inferred class,
only if it is not already classified and passes the exclusion filters. -/
def inferred_class_pass (g : Graph) (d : ClassDict) : ClassDict :=
  g.foldl (fun d t =>
    if t.p = rdf_type then
      if dictContains d t.o then d
      else if t.o ∈ OWL_EXCLUDES ∨ t.o ∈ ADDITIONAL_EXCLUDES ∨
                xsdPrefixed t.o ∨ t.o ∈ RDFS_EXCLUDES then d
      else dictInsert d t.o .inferred
    else d) d

/-- `identify_classes(g)` from `src/main.py`: the four classification
passes in source order, followed by the blank-node post-filter
(`del classes[cls]` for every `BNode` key). -/
def identify_classes (g : Graph) : ClassDict :=
  let afterOwl := explicit_class_pass g owl_Class .explicit_owl []
  let afterRdfs := explicit_class_pass g rdfs_Class .explicit_rdfs afterOwl
  let afterRdf := explicit_class_pass g rdf_Class .explicit_rdf afterRdfs
  let afterInferred := inferred_class_pass g afterRdf
  afterInferred.filter (fun e => !e.1.isBNode)

/-! Basic lemmas about the dict embedding. -/

/-- Lookup after a Python-dict assignment. -/
theorem dictLookup_insert (d : ClassDict) (k : Node) (v : ClassKind) (r : Node) :
    dictLookup (dictInsert d k v) r = if r = k then some v else dictLookup d r := by
  induction d with
  | nil =>
    simp only [dictInsert, dictLookup]
    by_cases h : r = k
    · simp [h]
    · have h' : ¬ k = r := fun hh => h hh.symm
      simp [h, h']
  | cons e rest ih =>
    simp only [dictInsert]
    by_cases hek : e.1 = k
    · simp only [if_pos hek, dictLookup]
      by_cases hrk : r = k
      · simp [hrk]
      · have h1 : ¬ k = r := fun hh => hrk hh.symm
        have h2 : ¬ e.1 = r := fun hh => hrk (hek.symm.trans hh).symm
        simp [hrk, h1, h2]
    · simp only [if_neg hek, dictLookup, ih]
      by_cases her : e.1 = r
      · have hrk : ¬ r = k := fun h => hek (her.trans h)
        simp [her, hrk]
      · simp [her]

/-- There is a triple `(r, rdf:type, obj)` in the graph. -/
def hasTypeTriple (g : Graph) (r obj : Node) : Prop :=
  ∃ t ∈ g, t.s = r ∧ t.p = rdf_type ∧ t.o = obj

instance (g : Graph) (r obj : Node) : Decidable (hasTypeTriple g r obj) := by
  unfold hasTypeTriple; infer_instance

theorem hasTypeTriple_cons {t : Triple} {ts : Graph} {r obj : Node} :
    hasTypeTriple (t :: ts) r obj ↔
      (t.s = r ∧ t.p = rdf_type ∧ t.o = obj) ∨ hasTypeTriple ts r obj := by
  simp only [hasTypeTriple, List.mem_cons]
  constructor
  · rintro ⟨u, hu | hu, h⟩
    · exact Or.inl (hu ▸ h)
    · exact Or.inr ⟨u, hu, h⟩
  · rintro (h | ⟨u, hu, h⟩)
    · exact ⟨t, Or.inl rfl, h⟩
    · exact ⟨u, Or.inr hu, h⟩

/-- The node `r` occurs as the object of some typing triple `(s, rdf:type, r)`. -/
def isTypeObject (g : Graph) (r : Node) : Prop :=
  ∃ t ∈ g, t.p = rdf_type ∧ t.o = r

instance (g : Graph) (r : Node) : Decidable (isTypeObject g r) := by
  unfold isTypeObject; infer_instance

theorem isTypeObject_cons {t : Triple} {ts : Graph} {r : Node} :
    isTypeObject (t :: ts) r ↔ (t.p = rdf_type ∧ t.o = r) ∨ isTypeObject ts r := by
  simp only [isTypeObject, List.mem_cons]
  constructor
  · rintro ⟨u, hu | hu, h⟩
    · exact Or.inl (hu ▸ h)
    · exact Or.inr ⟨u, hu, h⟩
  · rintro (h | ⟨u, hu, h⟩)
    · exact ⟨t, Or.inl rfl, h⟩
    · exact ⟨u, Or.inr hu, h⟩

/-- Effect of one explicit pass on lookups: a pass assigns `kind`
unconditionally to every non-excluded subject of a matching typing
triple, overwriting whatever was there before. -/
theorem dictLookup_explicit_class_pass (g : Graph) (obj : Node) (kind : ClassKind)
    (d : ClassDict) (r : Node) :
    dictLookup (explicit_class_pass g obj kind d) r =
      if r ∉ ADDITIONAL_EXCLUDES ∧ hasTypeTriple g r obj then some kind
      else dictLookup d r := by
  induction g generalizing d with
  | nil =>
    have h0 : explicit_class_pass [] obj kind d = d := rfl
    rw [h0]
    simp [hasTypeTriple]
  | cons t ts ih =>
    have hstep : explicit_class_pass (t :: ts) obj kind d =
        explicit_class_pass ts obj kind
          (if t.p = rdf_type ∧ t.o = obj then
             (if t.s ∈ ADDITIONAL_EXCLUDES then d else dictInsert d t.s kind)
           else d) := rfl
    rw [hstep, ih]
    by_cases hm : t.p = rdf_type ∧ t.o = obj
    · by_cases he : t.s ∈ ADDITIONAL_EXCLUDES
      · simp only [if_pos hm, if_pos he]
        by_cases hr : r ∈ ADDITIONAL_EXCLUDES
        · simp [hr]
        · have hsr : ¬ (t.s = r ∧ t.p = rdf_type ∧ t.o = obj) := by
            rintro ⟨h1, -, -⟩
            exact hr (h1 ▸ he)
          simp [hr, hasTypeTriple_cons, hsr]
      · simp only [if_pos hm, if_neg he]
        rw [dictLookup_insert]
        by_cases hsr : r = t.s
        · have hht : hasTypeTriple (t :: ts) t.s obj :=
            hasTypeTriple_cons.mpr (Or.inl ⟨rfl, hm⟩)
          simp [hsr, he, hht]
        · have hnot : ¬ (t.s = r ∧ t.p = rdf_type ∧ t.o = obj) := by
            rintro ⟨h1, -, -⟩
            exact hsr h1.symm
          simp [hasTypeTriple_cons, hnot, hsr]
    · simp only [if_neg hm]
      have hnot : ¬ (t.s = r ∧ t.p = rdf_type ∧ t.o = obj) := by
        rintro ⟨-, h2, h3⟩
        exact hm ⟨h2, h3⟩
      simp [hasTypeTriple_cons, hnot]

/-- The exclusion filter of rule 4 (the `continue` condition negated). -/
def rule4_filters (r : Node) : Prop :=
  ¬ (r ∈ OWL_EXCLUDES ∨ r ∈ ADDITIONAL_EXCLUDES ∨ xsdPrefixed r ∨ r ∈ RDFS_EXCLUDES)

instance (r : Node) : Decidable (rule4_filters r) := by
  unfold rule4_filters; infer_instance

/-- Effect of rule 4 on lookups: it never changes an existing entry, and
classifies `r` as inferred exactly when `r` is the object of a typing
triple and passes the exclusion filter. -/
theorem dictLookup_inferred_class_pass (g : Graph) (d : ClassDict) (r : Node) :
    dictLookup (inferred_class_pass g d) r =
      if (dictLookup d r).isSome then dictLookup d r
      else if isTypeObject g r ∧ rule4_filters r then some .inferred
      else none := by
  induction g generalizing d with
  | nil =>
    have h0 : inferred_class_pass [] d = d := rfl
    rw [h0]
    by_cases h : (dictLookup d r).isSome
    · simp [h]
    · have hn : dictLookup d r = none := Option.not_isSome_iff_eq_none.mp h
      simp [h, isTypeObject, hn]
  | cons t ts ih =>
    have hstep : inferred_class_pass (t :: ts) d =
        inferred_class_pass ts
          (if t.p = rdf_type then
             (if dictContains d t.o then d
              else if t.o ∈ OWL_EXCLUDES ∨ t.o ∈ ADDITIONAL_EXCLUDES ∨
                        xsdPrefixed t.o ∨ t.o ∈ RDFS_EXCLUDES then d
              else dictInsert d t.o .inferred)
           else d) := rfl
    rw [hstep, ih]
    by_cases hp : t.p = rdf_type
    · by_cases hc : dictContains d t.o
      · simp only [if_pos hp, if_pos hc]
        by_cases hr : (dictLookup d r).isSome
        · simp [hr]
        · have hor : ¬ t.o = r := by
            intro h
            exact hr (h ▸ hc)
          have hnot : ¬ (t.p = rdf_type ∧ t.o = r) := by
            rintro ⟨-, h2⟩
            exact hor h2
          simp [hr, isTypeObject_cons, hnot]
      · by_cases hf : t.o ∈ OWL_EXCLUDES ∨ t.o ∈ ADDITIONAL_EXCLUDES ∨
            xsdPrefixed t.o ∨ t.o ∈ RDFS_EXCLUDES
        · simp only [if_pos hp, if_neg hc, if_pos hf]
          by_cases hr : (dictLookup d r).isSome
          · simp [hr]
          · by_cases hor : t.o = r
            · have hfr : ¬ rule4_filters r := by
                unfold rule4_filters
                rw [← hor]
                exact fun hh => hh hf
              simp [hr, hfr]
            · have hnot : ¬ (t.p = rdf_type ∧ t.o = r) := by
                rintro ⟨-, h2⟩
                exact hor h2
              simp [hr, isTypeObject_cons, hnot]
        · simp only [if_pos hp, if_neg hc, if_neg hf]
          by_cases hor : r = t.o
          · have h1 : dictLookup (dictInsert d t.o .inferred) r = some .inferred := by
              rw [dictLookup_insert, if_pos hor]
            have h2 : ¬ (dictLookup d r).isSome := by
              rw [hor]
              exact hc
            have h3 : rule4_filters r := by
              unfold rule4_filters
              rw [hor]
              exact hf
            have hiso : isTypeObject (t :: ts) r :=
              isTypeObject_cons.mpr (Or.inl ⟨hp, hor.symm⟩)
            simp [h1, h2, hiso, h3]
          · have h1 : dictLookup (dictInsert d t.o .inferred) r = dictLookup d r := by
              rw [dictLookup_insert]
              simp [hor]
            have hnot : ¬ (t.p = rdf_type ∧ t.o = r) := by
              rintro ⟨-, h2⟩
              exact hor h2.symm
            simp [h1, isTypeObject_cons, hnot]
    · simp only [if_neg hp]
      have hnot : ¬ (t.p = rdf_type ∧ t.o = r) := by
        rintro ⟨h1, -⟩
        exact hp h1
      simp [isTypeObject_cons, hnot]

/-- A blank node is never a key of the post-filtered dict. -/
theorem dictLookup_filter_bnode_of_bnode (d : ClassDict) (r : Node) (h : r.isBNode = true) :
    dictLookup (d.filter (fun e => !e.1.isBNode)) r = none := by
  induction d with
  | nil => rfl
  | cons e rest ih =>
    by_cases hb : e.1.isBNode
    · simp [List.filter_cons, hb, ih]
    · have hne : ¬ e.1 = r := by
        intro hh
        rw [hh, h] at hb
        exact hb rfl
      simp [List.filter_cons, hb, dictLookup, hne, ih]

/-- The post-filter does not change lookups of non-blank nodes. -/
theorem dictLookup_filter_bnode_of_not (d : ClassDict) (r : Node) (h : r.isBNode = false) :
    dictLookup (d.filter (fun e => !e.1.isBNode)) r = dictLookup d r := by
  induction d with
  | nil => rfl
  | cons e rest ih =>
    by_cases hb : e.1.isBNode
    · have hne : ¬ e.1 = r := by
        intro hh
        rw [hh, h] at hb
        exact Bool.noConfusion hb
      simp [List.filter_cons, hb, dictLookup, hne, ih]
    · simp [List.filter_cons, hb, dictLookup, ih]

/-- Declarative form of the classification the code actually computes:
among the explicit rules the *last* matching pass wins (`rdf:Class` over
`rdfs:Class` over `owl:Class`), the meta-vocabulary and blank nodes are
never classified, and rule 4 applies only to resources not already
classified by an explicit rule. -/
def classification_rules (g : Graph) (r : Node) : Option ClassKind :=
  if r.isBNode then none
  else if r ∈ ADDITIONAL_EXCLUDES then none
  else if hasTypeTriple g r rdf_Class then some .explicit_rdf
  else if hasTypeTriple g r rdfs_Class then some .explicit_rdfs
  else if hasTypeTriple g r owl_Class then some .explicit_owl
  else if isTypeObject g r ∧ r ∉ OWL_EXCLUDES ∧ ¬ xsdPrefixed r ∧ r ∉ RDFS_EXCLUDES then
    some .inferred
  else none

/-- Full characterization of `identify_classes`. -/
theorem identify_classes_lookup (g : Graph) (r : Node) :
    dictLookup (identify_classes g) r = classification_rules g r := by
  unfold identify_classes classification_rules
  by_cases hb : r.isBNode
  · rw [dictLookup_filter_bnode_of_bnode _ _ hb]
    simp [hb]
  · rw [dictLookup_filter_bnode_of_not _ _ (by simpa using hb)]
    rw [dictLookup_inferred_class_pass, dictLookup_explicit_class_pass,
        dictLookup_explicit_class_pass, dictLookup_explicit_class_pass]
    have hnil : dictLookup [] r = none := rfl
    rw [hnil]
    by_cases he : r ∈ ADDITIONAL_EXCLUDES
    · have hfr : ¬ rule4_filters r := by
        unfold rule4_filters
        exact fun hh => hh (Or.inr (Or.inl he))
      simp [he, hb, hfr]
    · simp only [he, not_false_iff, true_and, hb, if_false]
      by_cases h3 : hasTypeTriple g r rdf_Class
      · simp [h3]
      · by_cases h2 : hasTypeTriple g r rdfs_Class
        · simp [h3, h2]
        · by_cases h1 : hasTypeTriple g r owl_Class
          · simp [h3, h2, h1]
          · have hfilt : rule4_filters r ↔
                (r ∉ OWL_EXCLUDES ∧ ¬ xsdPrefixed r ∧ r ∉ RDFS_EXCLUDES) := by
              unfold rule4_filters
              constructor
              · intro hh
                refine ⟨fun ha => hh (Or.inl ha), fun hx => hh (Or.inr (Or.inr (Or.inl hx))),
                  fun hd => hh (Or.inr (Or.inr (Or.inr hd)))⟩
              · rintro ⟨ha, hx, hd⟩ (h | h | h | h)
                · exact ha h
                · exact he h
                · exact hx h
                · exact hd h
            simp [h3, h2, h1, hfilt]

/-- A resource typed as both `owl:Class` and `rdfs:Class`, the input that
separates first-match-wins from the overwrite behaviour of the code. -/
def c1_R : Node := .uri "http://example.org/R"

/-- Graph declaring `c1_R` with both explicit class types. -/
def c1_graph : Graph :=
  [⟨c1_R, rdf_type, owl_Class⟩, ⟨c1_R, rdf_type, rdfs_Class⟩]

/-- C1 (counterexample): a resource that is subject of both
`(R, type, owl:Class)` and `(R, type, rdfs:Class)` is classified
`explicit-rdfs-class` by `identify_classes`, not `explicit-owl-class` as
the first-match-wins reading of the claim requires. -/
theorem c1_counterexample_last_explicit_rule_wins :
    dictLookup (identify_classes c1_graph) c1_R = some .explicit_rdfs ∧
      dictLookup (identify_classes c1_graph) c1_R ≠ some .explicit_owl := by
  constructor
  · decide
  · decide

/-- C1 (amended): the explicit rules 1–3 each assign unconditionally, so
among them the *last* matching rule in the order `owl:Class`,
`rdfs:Class`, `rdf:Class` determines the classification (in particular a
resource typed both `owl:Class` and `rdfs:Class` is classified
`explicit-rdfs-class`), while rule 4 classifies a resource as
`inferred-turtle-type` only when no explicit rule matched it; a resource
explicitly classified by rules 1–3 is never reclassified by rule 4.
`classification_rules` states this precedence declaratively and the
theorem proves `identify_classes` computes exactly it, for every graph
and resource. -/
theorem claim_C1_classification_precedence (g : Graph) (r : Node) :
    dictLookup (identify_classes g) r = classification_rules g r :=
  identify_classes_lookup g r

/-- C10: a member of the meta-vocabulary exclusion set
(`rdfs:Class`, `owl:Class`, `rdf:Property`) is never a key of the
classification mapping, whatever triples the graph contains — the
explicit rules 1–3 skip such subjects and rule 4 skips such objects. -/
theorem claim_C10_meta_vocabulary_never_classified (g : Graph) (r : Node)
    (h : r ∈ ADDITIONAL_EXCLUDES) :
    dictLookup (identify_classes g) r = none := by
  rw [identify_classes_lookup]
  unfold classification_rules
  by_cases hb : r.isBNode
  · simp [hb]
  · simp [hb, h]

/-- C10 witness: `rdfs:Class` itself is the subject of an explicit
`(rdfs:Class, type, owl:Class)` triple and is still not classified. -/
theorem claim_C10_witness :
    rdfs_Class ∈ ADDITIONAL_EXCLUDES ∧
      dictLookup (identify_classes [⟨rdfs_Class, rdf_type, owl_Class⟩]) rdfs_Class = none :=
  ⟨by decide, claim_C10_meta_vocabulary_never_classified _ _ (by decide)⟩

/-- Folding a conditional `insert` over a list builds the union of the
accumulator with the image of the selected elements — the shape shared by
every Python `for`-loop that conditionally `add`s to a `set`. -/
theorem foldl_insertIf_eq {α β : Type} [DecidableEq β] (c : α → Prop) [DecidablePred c]
    (f : α → β) (l : List α) (acc : Finset β) :
    l.foldl (fun a x => if c x then insert (f x) a else a) acc
      = acc ∪ ((l.filter (fun x => decide (c x))).map f).toFinset := by
  induction l generalizing acc with
  | nil => simp
  | cons x xs ih =>
    by_cases h : c x
    · simp [List.foldl_cons, if_pos h, ih, List.filter_cons, h,
        Finset.insert_union, Finset.union_insert]
    · simp [List.foldl_cons, if_neg h, ih, List.filter_cons, h]

/-- Result record of `count_subclasses_and_average`. -/
structure SubclassMetrics where
  total_subclasses : Nat
  average_subclasses_per_class : ℚ
deriving DecidableEq, Repr

/-- `count_subclasses_and_average(g, total_classes)` from `src/main.py`:
the set comprehension `{str(s) for s, p, o in g.triples((None,
RDFS.subClassOf, None))}` collects the string forms of the *subjects* of
subclass triples; the average guards against a zero class count. -/
def count_subclasses_and_average (g : Graph) (total_classes : Nat) : SubclassMetrics :=
  let subclasses : Finset String :=
    g.foldl (fun a t => if t.p = rdfs_subClassOf then insert t.s.toStr a else a) ∅
  let total := subclasses.card
  ⟨total, if total_classes > 0 then (total : ℚ) / (total_classes : ℚ) else 0⟩

/-- The quantity named by the claim (and by the spec's words
"unique subclass-relation target count"): the number of distinct
*objects* (targets) of `rdfs:subClassOf` triples.  Kept separate from
the source translation so the two can be compared. -/
def claimed_subclass_target_count (g : Graph) : Nat :=
  ((g.filter (fun t => decide (t.p = rdfs_subClassOf))).map (fun t => t.o)).toFinset.card

def c2_A : Node := .uri "http://example.org/A"

def c2_B : Node := .uri "http://example.org/B"

def c2_C : Node := .uri "http://example.org/C"

/-- One subclass with two superclasses: one distinct subject, two
distinct targets. -/
def c2_graph : Graph :=
  [⟨c2_A, rdfs_subClassOf, c2_B⟩, ⟨c2_A, rdfs_subClassOf, c2_C⟩]

/-- C2 (counterexample): the Total Subclasses metric does not equal the
number of distinct targets (objects) of `rdfs:subClassOf` triples — on a
graph whose only triples are `(A, subClassOf, B)` and `(A, subClassOf,
C)` the code returns 1 (distinct subjects) while the claimed count is
2. -/
theorem c2_counterexample_subjects_not_targets :
    (count_subclasses_and_average c2_graph 1).total_subclasses ≠
      claimed_subclass_target_count c2_graph := by
  decide

/-- C2 (amended): Total Subclasses equals the number of distinct string
forms of the *subjects* (sources) of `rdfs:subClassOf` triples, and
Average Subclasses per Class equals that count divided by the number of
identified classes, `0` when the class count is `0`. -/
theorem claim_C2_subclass_count_and_average (g : Graph) (total_classes : Nat) :
    (count_subclasses_and_average g total_classes).total_subclasses =
      ((g.filter (fun t => decide (t.p = rdfs_subClassOf))).map
        (fun t => t.s.toStr)).toFinset.card ∧
    (count_subclasses_and_average g total_classes).average_subclasses_per_class =
      (if 0 < total_classes then
        ((count_subclasses_and_average g total_classes).total_subclasses : ℚ) /
          (total_classes : ℚ)
      else 0) := by
  constructor
  · have h1 : (count_subclasses_and_average g total_classes).total_subclasses =
        (g.foldl (fun (a : Finset String) (t : Triple) =>
          if t.p = rdfs_subClassOf then insert t.s.toStr a else a) ∅).card := rfl
    rw [h1,
      foldl_insertIf_eq (fun t : Triple => t.p = rdfs_subClassOf)
        (fun t : Triple => t.s.toStr) g ∅]
    simp
  · rfl

/-! Individual identification (`count_individuals` and the individual set
rebuilt inside `list_properties_by_individual`). -/

/-- `excluded_types` shared by `count_individuals` and
`list_properties_by_individual`. -/
def excluded_types : List Node :=
  [owl_Class, owl_ObjectProperty, owl_AnnotationProperty, owl_DatatypeProperty,
   owl_Ontology, owl_Restriction, owl_FunctionalProperty, owl_DeprecatedProperty,
   owl_InverseFunctionalProperty, owl_SymmetricProperty, owl_TransitiveProperty,
   owl_onDatatype, owl_DeprecatedClass, rdf_Prop, rdfs_Datatype, rdfs_Class]

/-- Ontology-root detection: the subject of the first
`(_, type, owl:Ontology)` triple encountered, if any (the `break` in the
source). -/
def findRoot (g : Graph) : Option Node :=
  (g.find? (fun t => decide (t.p = rdf_type ∧ t.o = owl_Ontology))).map (fun t => t.s)

/-- Python truthiness of an rdflib node (`if ontology_root:`): all three
node kinds are `str` subclasses, truthy iff the string is nonempty. -/
def nodeTruthy (n : Node) : Prop := ¬ n.toStr = ""

instance (n : Node) : Decidable (nodeTruthy n) := by
  unfold nodeTruthy; infer_instance

/-- The guard `if ontology_root and uri == ontology_root: return False`
of `is_valid_individual`. -/
def rootBlocks : Option Node → Node → Prop
  | none, _ => False
  | some rt, r => nodeTruthy rt ∧ r = rt

instance : (ro : Option Node) → (r : Node) → Decidable (rootBlocks ro r)
  | none, _ => isFalse id
  | some rt, r => inferInstanceAs (Decidable (nodeTruthy rt ∧ r = rt))

/-- `is_valid_individual(uri)` (identical closure in `count_individuals`
and `list_properties_by_individual`): the resource is not the (truthy)
ontology root and none of its declared types is in `excluded_types`. -/
def is_valid_individual (g : Graph) (root : Option Node) (r : Node) : Prop :=
  ¬ rootBlocks root r ∧ ∀ t ∈ g, t.s = r → t.p = rdf_type → t.o ∉ excluded_types

instance (g : Graph) (root : Option Node) (r : Node) :
    Decidable (is_valid_individual g root r) := by
  unfold is_valid_individual; infer_instance

/-- The `individuals` set built by `count_individuals`: subjects of
`(_, type, owl:NamedIndividual)` triples, then subjects of any typing
triple, each filtered by the blank-node test and `is_valid_individual`. -/
def count_individuals_set (g : Graph) : Finset Node :=
  let ontology_root := findRoot g
  let fromNamed : Finset Node :=
    g.foldl (fun a t =>
      if t.p = rdf_type ∧ t.o = owl_NamedIndividual ∧ ¬ t.s.isBNode ∧
          is_valid_individual g ontology_root t.s then insert t.s a else a) ∅
  g.foldl (fun a t =>
    if t.p = rdf_type ∧ ¬ t.s.isBNode ∧
        is_valid_individual g ontology_root t.s then insert t.s a else a) fromNamed

/-- `count_individuals(g)` from `src/main.py`. -/
def count_individuals (g : Graph) : Nat := (count_individuals_set g).card

/-- The `individuals` set rebuilt inside `list_properties_by_individual`:
identical to `count_individuals_set` except that its second loop also
requires `o not in excluded_types`. -/
def lpbi_individuals (g : Graph) : Finset Node :=
  let ontology_root := findRoot g
  let fromNamed : Finset Node :=
    g.foldl (fun a t =>
      if t.p = rdf_type ∧ t.o = owl_NamedIndividual ∧ ¬ t.s.isBNode ∧
          is_valid_individual g ontology_root t.s then insert t.s a else a) ∅
  g.foldl (fun a t =>
    if t.p = rdf_type ∧ t.o ∉ excluded_types ∧ ¬ t.s.isBNode ∧
        is_valid_individual g ontology_root t.s then insert t.s a else a) fromNamed

/-- C8: the two independently implemented individual sets agree on every
graph — the extra `o not in excluded_types` guard of
`list_properties_by_individual` is redundant because
`is_valid_individual` already rejects any subject one of whose types is
excluded.  Consequently the Total Individuals metric and the denominator
of the individual density metrics count the same set. -/
theorem claim_C8_individual_sets_agree (g : Graph) :
    count_individuals_set g = lpbi_individuals g ∧
      count_individuals g = (lpbi_individuals g).card := by
  have hmain : count_individuals_set g = lpbi_individuals g := by
    unfold count_individuals_set lpbi_individuals
    ext r
    rw [foldl_insertIf_eq
          (fun t : Triple => t.p = rdf_type ∧ ¬ t.s.isBNode ∧
            is_valid_individual g (findRoot g) t.s) (fun t : Triple => t.s) g _,
        foldl_insertIf_eq
          (fun t : Triple => t.p = rdf_type ∧ t.o = owl_NamedIndividual ∧
            ¬ t.s.isBNode ∧ is_valid_individual g (findRoot g) t.s)
          (fun t : Triple => t.s) g ∅,
        foldl_insertIf_eq
          (fun t : Triple => t.p = rdf_type ∧ t.o ∉ excluded_types ∧
            ¬ t.s.isBNode ∧ is_valid_individual g (findRoot g) t.s)
          (fun t : Triple => t.s) g _,
        foldl_insertIf_eq
          (fun t : Triple => t.p = rdf_type ∧ t.o = owl_NamedIndividual ∧
            ¬ t.s.isBNode ∧ is_valid_individual g (findRoot g) t.s)
          (fun t : Triple => t.s) g ∅]
    simp only [Finset.mem_union, List.mem_toFinset, List.mem_map, List.mem_filter,
      decide_eq_true_eq, Finset.not_mem_empty, false_or]
    constructor
    · rintro (⟨t, ⟨htg, hc⟩, hts⟩ | ⟨t, ⟨htg, hp, hb, hv⟩, hts⟩)
      · exact Or.inl ⟨t, ⟨htg, hc⟩, hts⟩
      · exact Or.inr ⟨t, ⟨htg, hp, hv.2 t htg rfl hp, hb, hv⟩, hts⟩
    · rintro (h | ⟨t, ⟨htg, hp, _, hb, hv⟩, hts⟩)
      · exact Or.inl h
      · exact Or.inr ⟨t, ⟨htg, hp, hb, hv⟩, hts⟩
  exact ⟨hmain, by rw [count_individuals, hmain]⟩

/-- C5: a blank node is never in the final class mapping nor in the
individual sets, even when it is the subject of explicit
`(B, type, owl:Class)` or `(B, type, owl:NamedIndividual)` triples. -/
theorem claim_C5_no_blank_nodes (g : Graph) (b : Node) (h : b.isBNode = true) :
    dictLookup (identify_classes g) b = none ∧
      b ∉ count_individuals_set g ∧ b ∉ lpbi_individuals g := by
  refine ⟨?_, ?_, ?_⟩
  · rw [identify_classes_lookup]
    unfold classification_rules
    simp [h]
  · unfold count_individuals_set
    rw [foldl_insertIf_eq
          (fun t : Triple => t.p = rdf_type ∧ ¬ t.s.isBNode ∧
            is_valid_individual g (findRoot g) t.s) (fun t : Triple => t.s) g _,
        foldl_insertIf_eq
          (fun t : Triple => t.p = rdf_type ∧ t.o = owl_NamedIndividual ∧
            ¬ t.s.isBNode ∧ is_valid_individual g (findRoot g) t.s)
          (fun t : Triple => t.s) g ∅]
    simp only [Finset.mem_union, List.mem_toFinset, List.mem_map, List.mem_filter,
      decide_eq_true_eq, Finset.not_mem_empty, false_or]
    rintro (⟨t, ⟨-, -, -, hb, -⟩, hts⟩ | ⟨t, ⟨-, -, hb, -⟩, hts⟩) <;>
      exact hb (by rw [hts]; exact h)
  · unfold lpbi_individuals
    rw [foldl_insertIf_eq
          (fun t : Triple => t.p = rdf_type ∧ t.o ∉ excluded_types ∧
            ¬ t.s.isBNode ∧ is_valid_individual g (findRoot g) t.s)
          (fun t : Triple => t.s) g _,
        foldl_insertIf_eq
          (fun t : Triple => t.p = rdf_type ∧ t.o = owl_NamedIndividual ∧
            ¬ t.s.isBNode ∧ is_valid_individual g (findRoot g) t.s)
          (fun t : Triple => t.s) g ∅]
    simp only [Finset.mem_union, List.mem_toFinset, List.mem_map, List.mem_filter,
      decide_eq_true_eq, Finset.not_mem_empty, false_or]
    rintro (⟨t, ⟨-, -, -, hb, -⟩, hts⟩ | ⟨t, ⟨-, -, -, hb, -⟩, hts⟩) <;>
      exact hb (by rw [hts]; exact h)

/-- A blank node satisfying every other classification predicate. -/
def c5_b : Node := .bnode "anon1"

/-- C5 witness: the blank node is typed both as `owl:Class` and as
`owl:NamedIndividual` and is still excluded everywhere. -/
theorem claim_C5_witness :
    dictLookup (identify_classes
        [⟨c5_b, rdf_type, owl_Class⟩, ⟨c5_b, rdf_type, owl_NamedIndividual⟩]) c5_b = none ∧
      c5_b ∉ count_individuals_set
        [⟨c5_b, rdf_type, owl_Class⟩, ⟨c5_b, rdf_type, owl_NamedIndividual⟩] ∧
      c5_b ∉ lpbi_individuals
        [⟨c5_b, rdf_type, owl_Class⟩, ⟨c5_b, rdf_type, owl_NamedIndividual⟩] :=
  claim_C5_no_blank_nodes _ _ (by decide)

/-! Property classification (`list_properties_by_concept` and
`list_properties_by_individual`). -/

/-- Per-subject property buckets (`{"object_properties": [...],
"data_annotation_properties": [...]}`). -/
structure PropBuckets where
  object_properties : List Node
  data_annotation_properties : List Node
deriving DecidableEq, Repr

/-- The per-subject dictionary of buckets, with Python-dict semantics. -/
abbrev PropDict := List (Node × PropBuckets)

def pdictFind : PropDict → Node → Option PropBuckets
  | [], _ => none
  | e :: rest, k => if e.1 = k then some e.2 else pdictFind rest k

/-- `if s not in d: d[s] = {"object_properties": [],
"data_annotation_properties": []}`. -/
def pdictEnsure (st : PropDict) (k : Node) : PropDict :=
  if (pdictFind st k).isSome then st else st ++ [(k, ⟨[], []⟩)]

/-- `d[s]["object_properties"].append(p)`. -/
def pdictAppendObj : PropDict → Node → Node → PropDict
  | [], _, _ => []
  | e :: rest, k, p =>
    if e.1 = k then
      (e.1, ⟨e.2.object_properties ++ [p], e.2.data_annotation_properties⟩) :: rest
    else e :: pdictAppendObj rest k p

/-- `d[s]["data_annotation_properties"].append(p)`. -/
def pdictAppendData : PropDict → Node → Node → PropDict
  | [], _, _ => []
  | e :: rest, k, p =>
    if e.1 = k then
      (e.1, ⟨e.2.object_properties, e.2.data_annotation_properties ++ [p]⟩) :: rest
    else e :: pdictAppendData rest k p

/-- The object-property list recorded for subject `k` (empty when the
subject has no entry). -/
def objListOf (st : PropDict) (k : Node) : List Node :=
  ((pdictFind st k).getD ⟨[], []⟩).object_properties

/-- The data/annotation-property list recorded for subject `k`. -/
def dataListOf (st : PropDict) (k : Node) : List Node :=
  ((pdictFind st k).getD ⟨[], []⟩).data_annotation_properties

/-- `excluded_object_properties`, the fixed predicate exclusion list of
both property classifiers. -/
def excluded_object_properties : List Node := [rdfs_subClassOf, rdf_type]

/-- Loop body of `list_properties_by_concept`: for a triple whose subject
is a classified class, append the predicate to the object bucket when the
object is a `URIRef`, to the data/annotation bucket when it is not
(literal or blank node), skipping excluded predicates. -/
def concept_step (classes : ClassDict) (st : PropDict) (t : Triple) : PropDict :=
  if dictContains classes t.s then
    let st1 := pdictEnsure st t.s
    if t.o.isURIRef ∧ t.p ∉ excluded_object_properties then pdictAppendObj st1 t.s t.p
    else if ¬ t.o.isURIRef ∧ t.p ∉ excluded_object_properties then pdictAppendData st1 t.s t.p
    else st1
  else st

/-- `list_properties_by_concept` from `src/main.py` (on the parsed
graph).  The final dict comprehension of the source only re-labels each
entry with its class kind and re-wraps the lists; the bucket contents are
returned unchanged, so the embedding returns the bucket dictionary
together with the `classes` mapping. -/
def list_properties_by_concept (g : Graph) : PropDict × ClassDict :=
  let classes := identify_classes g
  (g.foldl (concept_step classes) [], classes)

/-- Accumulator of the property loop of `list_properties_by_individual`:
the bucket dictionary plus the two running totals. -/
structure IndAcc where
  st : PropDict
  total_object_properties : Nat
  total_data_properties : Nat
deriving Repr

/-- Loop body of `list_properties_by_individual`: for a triple whose
subject is an individual, a `URIRef` *or blank-node* object sends the
predicate to the object bucket, anything else (a literal) to the
data/annotation bucket, skipping excluded predicates. -/
def individual_step (individuals : Finset Node) (acc : IndAcc) (t : Triple) : IndAcc :=
  if t.s ∈ individuals then
    let st1 := pdictEnsure acc.st t.s
    if (t.o.isURIRef ∨ t.o.isBNode) ∧ t.p ∉ excluded_object_properties then
      ⟨pdictAppendObj st1 t.s t.p, acc.total_object_properties + 1, acc.total_data_properties⟩
    else if ¬ t.o.isURIRef ∧ ¬ t.o.isBNode ∧ t.p ∉ excluded_object_properties then
      ⟨pdictAppendData st1 t.s t.p, acc.total_object_properties, acc.total_data_properties + 1⟩
    else ⟨st1, acc.total_object_properties, acc.total_data_properties⟩
  else acc

/-- Result record of `list_properties_by_individual`. -/
structure IndividualDensityResult where
  individual_properties : PropDict
  object_properties_per_individual : ℚ
  data_properties_per_individual : ℚ
  property_density_by_individual : ℚ
deriving Repr

/-- `list_properties_by_individual` from `src/main.py` (on the parsed
graph): rebuild the individual set, bucket every triple of an individual
subject, then compute the two per-individual proportions (guarded by
`num_individuals > 0`) and their sum. -/
def list_properties_by_individual (g : Graph) : IndividualDensityResult :=
  let individuals := lpbi_individuals g
  let acc := g.foldl (individual_step individuals) ⟨[], 0, 0⟩
  let num_individuals := individuals.card
  let objD : ℚ :=
    if num_individuals > 0 then
      (acc.total_object_properties : ℚ) / (num_individuals : ℚ)
    else 0
  let dataD : ℚ :=
    if num_individuals > 0 then
      (acc.total_data_properties : ℚ) / (num_individuals : ℚ)
    else 0
  ⟨acc.st, objD, dataD, objD + dataD⟩

theorem pdictFind_append_single (st : PropDict) (k : Node) (b : PropBuckets) (r : Node) :
    pdictFind (st ++ [(k, b)]) r =
      (pdictFind st r).orElse (fun _ => if k = r then some b else none) := by
  induction st with
  | nil => simp [pdictFind]
  | cons e rest ih =>
    by_cases he : e.1 = r
    · simp [pdictFind, he]
    · simp [pdictFind, he, ih]

theorem pdictFind_ensure (st : PropDict) (k r : Node) :
    pdictFind (pdictEnsure st k) r =
      if r = k then some ((pdictFind st k).getD ⟨[], []⟩) else pdictFind st r := by
  unfold pdictEnsure
  by_cases hs : (pdictFind st k).isSome
  · simp only [if_pos hs]
    by_cases hrk : r = k
    · obtain ⟨b, hb⟩ := Option.isSome_iff_exists.mp hs
      rw [hrk, hb]
      simp
    · simp [hrk]
  · simp only [if_neg hs]
    have hn : pdictFind st k = none := Option.not_isSome_iff_eq_none.mp hs
    rw [pdictFind_append_single]
    by_cases hrk : r = k
    · rw [hrk, hn]
      simp [hn]
    · have hkr : ¬ k = r := fun hh => hrk hh.symm
      cases hf : pdictFind st r with
      | some v => simp [hf, hrk]
      | none => simp [hf, hrk, hkr]

theorem pdictFind_appendObj (st : PropDict) (k p r : Node) :
    pdictFind (pdictAppendObj st k p) r =
      if r = k then
        (pdictFind st k).map
          (fun b => ⟨b.object_properties ++ [p], b.data_annotation_properties⟩)
      else pdictFind st r := by
  induction st with
  | nil =>
    simp only [pdictAppendObj, pdictFind, Option.map_none']
    simp
  | cons e rest ih =>
    by_cases hek : e.1 = k
    · by_cases hrk : r = k
      · have her : e.1 = r := hek.trans hrk.symm
        simp [pdictAppendObj, pdictFind, hek, hrk, her]
      · have her : ¬ e.1 = r := fun hh => hrk ((hek.symm.trans hh).symm)
        have hkr : ¬ k = r := fun hh => hrk hh.symm
        simp [pdictAppendObj, pdictFind, hek, hrk, her, hkr]
    · by_cases her : e.1 = r
      · have hrk : ¬ r = k := fun hh => hek (her.trans hh)
        simp [pdictAppendObj, pdictFind, hek, her, hrk]
      · simp [pdictAppendObj, pdictFind, hek, her, ih]

theorem pdictFind_appendData (st : PropDict) (k p r : Node) :
    pdictFind (pdictAppendData st k p) r =
      if r = k then
        (pdictFind st k).map
          (fun b => ⟨b.object_properties, b.data_annotation_properties ++ [p]⟩)
      else pdictFind st r := by
  induction st with
  | nil =>
    simp only [pdictAppendData, pdictFind, Option.map_none']
    simp
  | cons e rest ih =>
    by_cases hek : e.1 = k
    · by_cases hrk : r = k
      · have her : e.1 = r := hek.trans hrk.symm
        simp [pdictAppendData, pdictFind, hek, hrk, her]
      · have her : ¬ e.1 = r := fun hh => hrk ((hek.symm.trans hh).symm)
        have hkr : ¬ k = r := fun hh => hrk hh.symm
        simp [pdictAppendData, pdictFind, hek, hrk, her, hkr]
    · by_cases her : e.1 = r
      · have hrk : ¬ r = k := fun hh => hek (her.trans hh)
        simp [pdictAppendData, pdictFind, hek, her, hrk]
      · simp [pdictAppendData, pdictFind, hek, her, ih]

/-- Object list after an ensure-then-append-object on subject `k`. -/
theorem objListOf_ensure_appendObj (st : PropDict) (k p r : Node) :
    objListOf (pdictAppendObj (pdictEnsure st k) k p) r =
      if r = k then objListOf st k ++ [p] else objListOf st r := by
  unfold objListOf
  rw [pdictFind_appendObj, pdictFind_ensure, pdictFind_ensure]
  by_cases hrk : r = k
  · simp [hrk]
  · simp [hrk]

/-- Data list is untouched by an ensure-then-append-object. -/
theorem dataListOf_ensure_appendObj (st : PropDict) (k p r : Node) :
    dataListOf (pdictAppendObj (pdictEnsure st k) k p) r = dataListOf st r := by
  unfold dataListOf
  rw [pdictFind_appendObj, pdictFind_ensure, pdictFind_ensure]
  by_cases hrk : r = k
  · simp [hrk]
  · simp [hrk]

/-- Data list after an ensure-then-append-data on subject `k`. -/
theorem dataListOf_ensure_appendData (st : PropDict) (k p r : Node) :
    dataListOf (pdictAppendData (pdictEnsure st k) k p) r =
      if r = k then dataListOf st k ++ [p] else dataListOf st r := by
  unfold dataListOf
  rw [pdictFind_appendData, pdictFind_ensure, pdictFind_ensure]
  by_cases hrk : r = k
  · simp [hrk]
  · simp [hrk]

/-- Object list is untouched by an ensure-then-append-data. -/
theorem objListOf_ensure_appendData (st : PropDict) (k p r : Node) :
    objListOf (pdictAppendData (pdictEnsure st k) k p) r = objListOf st r := by
  unfold objListOf
  rw [pdictFind_appendData, pdictFind_ensure, pdictFind_ensure]
  by_cases hrk : r = k
  · simp [hrk]
  · simp [hrk]

/-- An ensure alone changes no bucket list. -/
theorem objListOf_ensure (st : PropDict) (k r : Node) :
    objListOf (pdictEnsure st k) r = objListOf st r := by
  unfold objListOf
  rw [pdictFind_ensure]
  by_cases hrk : r = k
  · simp [hrk]
  · simp [hrk]

theorem dataListOf_ensure (st : PropDict) (k r : Node) :
    dataListOf (pdictEnsure st k) r = dataListOf st r := by
  unfold dataListOf
  rw [pdictFind_ensure]
  by_cases hrk : r = k
  · simp [hrk]
  · simp [hrk]


/-- The object bucket of subject `r` produced by the
`list_properties_by_concept` loop: the predicates, in graph order, of the
triples with subject `r` (a classified class) whose object is a `URIRef`
and whose predicate is not excluded. -/
theorem objListOf_concept_fold (classes : ClassDict) (g : Graph) (st : PropDict) (r : Node) :
    objListOf (g.foldl (concept_step classes) st) r =
      objListOf st r ++
        ((g.filter (fun t => decide (t.s = r ∧ dictContains classes t.s ∧
            t.o.isURIRef = true ∧ t.p ∉ excluded_object_properties))).map
          (fun t => t.p)) := by
  induction g generalizing st with
  | nil => simp
  | cons t ts ih =>
    have hstep : (t :: ts).foldl (concept_step classes) st =
        ts.foldl (concept_step classes) (concept_step classes st t) := rfl
    rw [hstep, ih]
    by_cases hc : t.s = r ∧ dictContains classes t.s ∧ t.o.isURIRef = true ∧
        t.p ∉ excluded_object_properties
    · obtain ⟨hts, hmem, hobj, hexc⟩ := hc
      have hstep2 : concept_step classes st t =
          pdictAppendObj (pdictEnsure st t.s) t.s t.p := by
        simp [concept_step, hmem, hobj, hexc]
      rw [hstep2, objListOf_ensure_appendObj, if_pos hts.symm, hts,
        List.filter_cons_of_pos]
      · simp
      · have hmem' := hts ▸ hmem
        simp [hts, hmem', hobj, hexc]
    · have hl : objListOf (concept_step classes st t) r = objListOf st r := by
        by_cases hmem : dictContains classes t.s
        · by_cases hobj : t.o.isURIRef = true ∧ t.p ∉ excluded_object_properties
          · have hstep2 : concept_step classes st t =
                pdictAppendObj (pdictEnsure st t.s) t.s t.p := by
              simp [concept_step, hmem, hobj.1, hobj.2]
            rw [hstep2, objListOf_ensure_appendObj]
            have hns : ¬ r = t.s := by
              intro hh
              exact hc ⟨hh.symm, hmem, hobj.1, hobj.2⟩
            rw [if_neg hns]
          · by_cases hdata : ¬ t.o.isURIRef = true ∧ t.p ∉ excluded_object_properties
            · have hstep2 : concept_step classes st t =
                  pdictAppendData (pdictEnsure st t.s) t.s t.p := by
                simp [concept_step, hmem, hdata.1, hdata.2]
              rw [hstep2, objListOf_ensure_appendData]
            · have hpe : t.p ∈ excluded_object_properties := by
                by_contra hpe
                by_cases hu : t.o.isURIRef = true
                · exact hobj ⟨hu, hpe⟩
                · exact hdata ⟨hu, hpe⟩
              have hstep2 : concept_step classes st t = pdictEnsure st t.s := by
                simp [concept_step, hmem, hpe]
              rw [hstep2, objListOf_ensure]
        · have hstep2 : concept_step classes st t = st := by
            simp [concept_step, hmem]
          rw [hstep2]
      rw [hl, List.filter_cons_of_neg]
      simp only [decide_eq_true_eq]
      exact hc

/-- The data/annotation bucket of subject `r` produced by the
`list_properties_by_concept` loop: predicates of triples with subject `r`
whose object is *not* a `URIRef` (literal or blank node), predicate not
excluded. -/
theorem dataListOf_concept_fold (classes : ClassDict) (g : Graph) (st : PropDict) (r : Node) :
    dataListOf (g.foldl (concept_step classes) st) r =
      dataListOf st r ++
        ((g.filter (fun t => decide (t.s = r ∧ dictContains classes t.s ∧
            ¬ t.o.isURIRef = true ∧ t.p ∉ excluded_object_properties))).map
          (fun t => t.p)) := by
  induction g generalizing st with
  | nil => simp
  | cons t ts ih =>
    have hstep : (t :: ts).foldl (concept_step classes) st =
        ts.foldl (concept_step classes) (concept_step classes st t) := rfl
    rw [hstep, ih]
    by_cases hc : t.s = r ∧ dictContains classes t.s ∧ ¬ t.o.isURIRef = true ∧
        t.p ∉ excluded_object_properties
    · obtain ⟨hts, hmem, hobj, hexc⟩ := hc
      have hstep2 : concept_step classes st t =
          pdictAppendData (pdictEnsure st t.s) t.s t.p := by
        simp [concept_step, hmem, hobj, hexc]
      rw [hstep2, dataListOf_ensure_appendData, if_pos hts.symm, hts,
        List.filter_cons_of_pos]
      · simp
      · have hmem' := hts ▸ hmem
        simp [hts, hmem', hobj, hexc]
    · have hl : dataListOf (concept_step classes st t) r = dataListOf st r := by
        by_cases hmem : dictContains classes t.s
        · by_cases hobj : t.o.isURIRef = true ∧ t.p ∉ excluded_object_properties
          · have hstep2 : concept_step classes st t =
                pdictAppendObj (pdictEnsure st t.s) t.s t.p := by
              simp [concept_step, hmem, hobj.1, hobj.2]
            rw [hstep2, dataListOf_ensure_appendObj]
          · by_cases hdata : ¬ t.o.isURIRef = true ∧ t.p ∉ excluded_object_properties
            · have hstep2 : concept_step classes st t =
                  pdictAppendData (pdictEnsure st t.s) t.s t.p := by
                simp [concept_step, hmem, hdata.1, hdata.2]
              rw [hstep2, dataListOf_ensure_appendData]
              have hns : ¬ r = t.s := by
                intro hh
                exact hc ⟨hh.symm, hmem, hdata.1, hdata.2⟩
              rw [if_neg hns]
            · have hpe : t.p ∈ excluded_object_properties := by
                by_contra hpe
                by_cases hu : t.o.isURIRef = true
                · exact hobj ⟨hu, hpe⟩
                · exact hdata ⟨hu, hpe⟩
              have hstep2 : concept_step classes st t = pdictEnsure st t.s := by
                simp [concept_step, hmem, hpe]
              rw [hstep2, dataListOf_ensure]
        · have hstep2 : concept_step classes st t = st := by
            simp [concept_step, hmem]
          rw [hstep2]
      rw [hl, List.filter_cons_of_neg]
      simp only [decide_eq_true_eq]
      exact hc

/-- The object bucket of subject `r` produced by the
`list_properties_by_individual` loop: predicates of triples with subject
`r` (an individual) whose object is a `URIRef` *or a blank node*,
predicate not excluded. -/
theorem objListOf_individual_fold (ind : Finset Node) (g : Graph) (acc : IndAcc) (r : Node) :
    objListOf (g.foldl (individual_step ind) acc).st r =
      objListOf acc.st r ++
        ((g.filter (fun t => decide (t.s = r ∧ t.s ∈ ind ∧
            (t.o.isURIRef = true ∨ t.o.isBNode = true) ∧
            t.p ∉ excluded_object_properties))).map (fun t => t.p)) := by
  induction g generalizing acc with
  | nil => simp
  | cons t ts ih =>
    have hstep : (t :: ts).foldl (individual_step ind) acc =
        ts.foldl (individual_step ind) (individual_step ind acc t) := rfl
    rw [hstep, ih]
    by_cases hc : t.s = r ∧ t.s ∈ ind ∧ (t.o.isURIRef = true ∨ t.o.isBNode = true) ∧
        t.p ∉ excluded_object_properties
    · obtain ⟨hts, hmem, hobj, hexc⟩ := hc
      have hstep2 : (individual_step ind acc t).st =
          pdictAppendObj (pdictEnsure acc.st t.s) t.s t.p := by
        simp [individual_step, hmem, hobj, hexc]
      rw [hstep2, objListOf_ensure_appendObj, if_pos hts.symm, hts,
        List.filter_cons_of_pos]
      · simp
      · have hmem' := hts ▸ hmem
        simp [hts, hmem', hobj, hexc]
    · have hl : objListOf (individual_step ind acc t).st r = objListOf acc.st r := by
        by_cases hmem : t.s ∈ ind
        · by_cases hobj : (t.o.isURIRef = true ∨ t.o.isBNode = true) ∧
              t.p ∉ excluded_object_properties
          · have hstep2 : (individual_step ind acc t).st =
                pdictAppendObj (pdictEnsure acc.st t.s) t.s t.p := by
              simp [individual_step, hmem, hobj.1, hobj.2]
            rw [hstep2, objListOf_ensure_appendObj]
            have hns : ¬ r = t.s := by
              intro hh
              exact hc ⟨hh.symm, hmem, hobj.1, hobj.2⟩
            rw [if_neg hns]
          · by_cases hdata : ¬ t.o.isURIRef = true ∧ ¬ t.o.isBNode = true ∧
                t.p ∉ excluded_object_properties
            · have hstep2 : (individual_step ind acc t).st =
                  pdictAppendData (pdictEnsure acc.st t.s) t.s t.p := by
                simp [individual_step, hmem, hdata.1, hdata.2.1, hdata.2.2]
              rw [hstep2, objListOf_ensure_appendData]
            · have hpe : t.p ∈ excluded_object_properties := by
                by_contra hpe
                by_cases hu : t.o.isURIRef = true
                · exact hobj ⟨Or.inl hu, hpe⟩
                · by_cases hb : t.o.isBNode = true
                  · exact hobj ⟨Or.inr hb, hpe⟩
                  · exact hdata ⟨hu, hb, hpe⟩
              have hstep2 : (individual_step ind acc t).st = pdictEnsure acc.st t.s := by
                simp [individual_step, hmem, hpe]
              rw [hstep2, objListOf_ensure]
        · have hstep2 : (individual_step ind acc t).st = acc.st := by
            simp [individual_step, hmem]
          rw [hstep2]
      rw [hl, List.filter_cons_of_neg]
      simp only [decide_eq_true_eq]
      exact hc

/-- The data/annotation bucket of subject `r` produced by the
`list_properties_by_individual` loop: predicates of triples with subject
`r` whose object is neither a `URIRef` nor a blank node (a literal),
predicate not excluded. -/
theorem dataListOf_individual_fold (ind : Finset Node) (g : Graph) (acc : IndAcc) (r : Node) :
    dataListOf (g.foldl (individual_step ind) acc).st r =
      dataListOf acc.st r ++
        ((g.filter (fun t => decide (t.s = r ∧ t.s ∈ ind ∧
            ¬ t.o.isURIRef = true ∧ ¬ t.o.isBNode = true ∧
            t.p ∉ excluded_object_properties))).map (fun t => t.p)) := by
  induction g generalizing acc with
  | nil => simp
  | cons t ts ih =>
    have hstep : (t :: ts).foldl (individual_step ind) acc =
        ts.foldl (individual_step ind) (individual_step ind acc t) := rfl
    rw [hstep, ih]
    by_cases hc : t.s = r ∧ t.s ∈ ind ∧ ¬ t.o.isURIRef = true ∧ ¬ t.o.isBNode = true ∧
        t.p ∉ excluded_object_properties
    · obtain ⟨hts, hmem, ho1, ho2, hexc⟩ := hc
      have hstep2 : (individual_step ind acc t).st =
          pdictAppendData (pdictEnsure acc.st t.s) t.s t.p := by
        simp [individual_step, hmem, ho1, ho2, hexc]
      rw [hstep2, dataListOf_ensure_appendData, if_pos hts.symm, hts,
        List.filter_cons_of_pos]
      · simp
      · have hmem' := hts ▸ hmem
        simp [hts, hmem', ho1, ho2, hexc]
    · have hl : dataListOf (individual_step ind acc t).st r = dataListOf acc.st r := by
        by_cases hmem : t.s ∈ ind
        · by_cases hobj : (t.o.isURIRef = true ∨ t.o.isBNode = true) ∧
              t.p ∉ excluded_object_properties
          · have hstep2 : (individual_step ind acc t).st =
                pdictAppendObj (pdictEnsure acc.st t.s) t.s t.p := by
              simp [individual_step, hmem, hobj.1, hobj.2]
            rw [hstep2, dataListOf_ensure_appendObj]
          · by_cases hdata : ¬ t.o.isURIRef = true ∧ ¬ t.o.isBNode = true ∧
                t.p ∉ excluded_object_properties
            · have hstep2 : (individual_step ind acc t).st =
                  pdictAppendData (pdictEnsure acc.st t.s) t.s t.p := by
                simp [individual_step, hmem, hdata.1, hdata.2.1, hdata.2.2]
              rw [hstep2, dataListOf_ensure_appendData]
              have hns : ¬ r = t.s := by
                intro hh
                exact hc ⟨hh.symm, hmem, hdata.1, hdata.2.1, hdata.2.2⟩
              rw [if_neg hns]
            · have hpe : t.p ∈ excluded_object_properties := by
                by_contra hpe
                by_cases hu : t.o.isURIRef = true
                · exact hobj ⟨Or.inl hu, hpe⟩
                · by_cases hb : t.o.isBNode = true
                  · exact hobj ⟨Or.inr hb, hpe⟩
                  · exact hdata ⟨hu, hb, hpe⟩
              have hstep2 : (individual_step ind acc t).st = pdictEnsure acc.st t.s := by
                simp [individual_step, hmem, hpe]
              rw [hstep2, dataListOf_ensure]
        · have hstep2 : (individual_step ind acc t).st = acc.st := by
            simp [individual_step, hmem]
          rw [hstep2]
      rw [hl, List.filter_cons_of_neg]
      simp only [decide_eq_true_eq]
      exact hc

theorem not_isURIRef_of_isBNode {n : Node} (h : n.isBNode = true) : ¬ n.isURIRef = true := by
  cases n <;> simp_all [Node.isBNode, Node.isURIRef]

theorem not_isURIRef_of_isLiteral {n : Node} (h : n.isLiteral = true) :
    ¬ n.isURIRef = true := by
  cases n <;> simp_all [Node.isLiteral, Node.isURIRef]

theorem not_isBNode_of_isLiteral {n : Node} (h : n.isLiteral = true) :
    ¬ n.isBNode = true := by
  cases n <;> simp_all [Node.isLiteral, Node.isBNode]

/-- Membership in the class-mode object bucket. -/
theorem mem_objListOf_concept (g : Graph) (r p : Node) :
    p ∈ objListOf (list_properties_by_concept g).1 r ↔
      ∃ u ∈ g, u.s = r ∧ dictContains (identify_classes g) r ∧
        u.o.isURIRef = true ∧ u.p ∉ excluded_object_properties ∧ u.p = p := by
  have hdefc : (list_properties_by_concept g).1 =
      g.foldl (concept_step (identify_classes g)) [] := rfl
  rw [hdefc, objListOf_concept_fold]
  have hnil : objListOf [] r = [] := rfl
  rw [hnil, List.nil_append]
  simp only [List.mem_map, List.mem_filter, decide_eq_true_eq]
  constructor
  · rintro ⟨u, ⟨hug, hus, hmem, huri, hexc⟩, hup⟩
    exact ⟨u, hug, hus, hus ▸ hmem, huri, hexc, hup⟩
  · rintro ⟨u, hug, hus, hmem, huri, hexc, hup⟩
    exact ⟨u, ⟨hug, hus, hus.symm ▸ hmem, huri, hexc⟩, hup⟩

/-- Membership in the class-mode data/annotation bucket. -/
theorem mem_dataListOf_concept (g : Graph) (r p : Node) :
    p ∈ dataListOf (list_properties_by_concept g).1 r ↔
      ∃ u ∈ g, u.s = r ∧ dictContains (identify_classes g) r ∧
        ¬ u.o.isURIRef = true ∧ u.p ∉ excluded_object_properties ∧ u.p = p := by
  have hdefc : (list_properties_by_concept g).1 =
      g.foldl (concept_step (identify_classes g)) [] := rfl
  rw [hdefc, dataListOf_concept_fold]
  have hnil : dataListOf [] r = [] := rfl
  rw [hnil, List.nil_append]
  simp only [List.mem_map, List.mem_filter, decide_eq_true_eq]
  constructor
  · rintro ⟨u, ⟨hug, hus, hmem, huri, hexc⟩, hup⟩
    exact ⟨u, hug, hus, hus ▸ hmem, huri, hexc, hup⟩
  · rintro ⟨u, hug, hus, hmem, huri, hexc, hup⟩
    exact ⟨u, ⟨hug, hus, hus.symm ▸ hmem, huri, hexc⟩, hup⟩

/-- Membership in the individual-mode object bucket. -/
theorem mem_objListOf_individual (g : Graph) (r p : Node) :
    p ∈ objListOf (list_properties_by_individual g).individual_properties r ↔
      ∃ u ∈ g, u.s = r ∧ r ∈ lpbi_individuals g ∧
        (u.o.isURIRef = true ∨ u.o.isBNode = true) ∧
        u.p ∉ excluded_object_properties ∧ u.p = p := by
  have hdefi : (list_properties_by_individual g).individual_properties =
      (g.foldl (individual_step (lpbi_individuals g)) ⟨[], 0, 0⟩).st := rfl
  rw [hdefi, objListOf_individual_fold]
  have hnil : objListOf (IndAcc.st ⟨[], 0, 0⟩) r = [] := rfl
  rw [hnil, List.nil_append]
  simp only [List.mem_map, List.mem_filter, decide_eq_true_eq]
  constructor
  · rintro ⟨u, ⟨hug, hus, hmem, huri, hexc⟩, hup⟩
    exact ⟨u, hug, hus, hus ▸ hmem, huri, hexc, hup⟩
  · rintro ⟨u, hug, hus, hmem, huri, hexc, hup⟩
    exact ⟨u, ⟨hug, hus, hus.symm ▸ hmem, huri, hexc⟩, hup⟩

/-- Membership in the individual-mode data/annotation bucket. -/
theorem mem_dataListOf_individual (g : Graph) (r p : Node) :
    p ∈ dataListOf (list_properties_by_individual g).individual_properties r ↔
      ∃ u ∈ g, u.s = r ∧ r ∈ lpbi_individuals g ∧
        ¬ u.o.isURIRef = true ∧ ¬ u.o.isBNode = true ∧
        u.p ∉ excluded_object_properties ∧ u.p = p := by
  have hdefi : (list_properties_by_individual g).individual_properties =
      (g.foldl (individual_step (lpbi_individuals g)) ⟨[], 0, 0⟩).st := rfl
  rw [hdefi, dataListOf_individual_fold]
  have hnil : dataListOf (IndAcc.st ⟨[], 0, 0⟩) r = [] := rfl
  rw [hnil, List.nil_append]
  simp only [List.mem_map, List.mem_filter, decide_eq_true_eq]
  constructor
  · rintro ⟨u, ⟨hug, hus, hmem, hu1, hu2, hexc⟩, hup⟩
    exact ⟨u, hug, hus, hus ▸ hmem, hu1, hu2, hexc, hup⟩
  · rintro ⟨u, hug, hus, hmem, hu1, hu2, hexc, hup⟩
    exact ⟨u, ⟨hug, hus, hus.symm ▸ hmem, hu1, hu2, hexc⟩, hup⟩

/-- C3: for every triple of a classified subject, excluded predicates
(`rdfs:subClassOf`, `rdf:type`) are never placed in either bucket; a
blank-node object sends the predicate to the data/annotation bucket in
class mode but to the object bucket in individual mode; a `URIRef`
object always goes to the object bucket and a literal object always to
the data/annotation bucket. -/
theorem claim_C3_property_bucket_rules (g : Graph) (t : Triple) (ht : t ∈ g) :
    ((t.p = rdfs_subClassOf ∨ t.p = rdf_type) →
      (t.p ∉ objListOf (list_properties_by_concept g).1 t.s ∧
       t.p ∉ dataListOf (list_properties_by_concept g).1 t.s ∧
       t.p ∉ objListOf (list_properties_by_individual g).individual_properties t.s ∧
       t.p ∉ dataListOf (list_properties_by_individual g).individual_properties t.s)) ∧
    (t.p ∉ excluded_object_properties →
      ((t.o.isBNode = true →
          (dictContains (identify_classes g) t.s →
            t.p ∈ dataListOf (list_properties_by_concept g).1 t.s) ∧
          (t.s ∈ lpbi_individuals g →
            t.p ∈ objListOf (list_properties_by_individual g).individual_properties t.s)) ∧
       (t.o.isURIRef = true →
          (dictContains (identify_classes g) t.s →
            t.p ∈ objListOf (list_properties_by_concept g).1 t.s) ∧
          (t.s ∈ lpbi_individuals g →
            t.p ∈ objListOf (list_properties_by_individual g).individual_properties t.s)) ∧
       (t.o.isLiteral = true →
          (dictContains (identify_classes g) t.s →
            t.p ∈ dataListOf (list_properties_by_concept g).1 t.s) ∧
          (t.s ∈ lpbi_individuals g →
            t.p ∈ dataListOf (list_properties_by_individual g).individual_properties t.s)))) := by
  constructor
  · intro hp
    have hpe : t.p ∈ excluded_object_properties := by
      rcases hp with h | h <;> simp [excluded_object_properties, h]
    refine ⟨?_, ?_, ?_, ?_⟩
    · rw [mem_objListOf_concept]
      rintro ⟨u, -, -, -, -, hexc, hup⟩
      exact hexc (hup.symm ▸ hpe)
    · rw [mem_dataListOf_concept]
      rintro ⟨u, -, -, -, -, hexc, hup⟩
      exact hexc (hup.symm ▸ hpe)
    · rw [mem_objListOf_individual]
      rintro ⟨u, -, -, -, -, hexc, hup⟩
      exact hexc (hup.symm ▸ hpe)
    · rw [mem_dataListOf_individual]
      rintro ⟨u, -, -, -, -, -, hexc, hup⟩
      exact hexc (hup.symm ▸ hpe)
  · intro hnexc
    refine ⟨?_, ?_, ?_⟩
    · intro hbn
      constructor
      · intro hcls
        rw [mem_dataListOf_concept]
        exact ⟨t, ht, rfl, hcls, not_isURIRef_of_isBNode hbn, hnexc, rfl⟩
      · intro hind
        rw [mem_objListOf_individual]
        exact ⟨t, ht, rfl, hind, Or.inr hbn, hnexc, rfl⟩
    · intro huri
      constructor
      · intro hcls
        rw [mem_objListOf_concept]
        exact ⟨t, ht, rfl, hcls, huri, hnexc, rfl⟩
      · intro hind
        rw [mem_objListOf_individual]
        exact ⟨t, ht, rfl, hind, Or.inl huri, hnexc, rfl⟩
    · intro hlit
      constructor
      · intro hcls
        rw [mem_dataListOf_concept]
        exact ⟨t, ht, rfl, hcls, not_isURIRef_of_isLiteral hlit, hnexc, rfl⟩
      · intro hind
        rw [mem_dataListOf_individual]
        exact ⟨t, ht, rfl, hind, not_isURIRef_of_isLiteral hlit,
          not_isBNode_of_isLiteral hlit, hnexc, rfl⟩

def c3_Cat : Node := .uri "http://example.org/Cat"

def c3_note : Node := .uri "http://example.org/note"

def c3_Fido : Node := .uri "http://example.org/Fido"

def c3_Dog : Node := .uri "http://example.org/Dog"

def c3_likes : Node := .uri "http://example.org/likes"

/-- A class (`Cat`) and an individual (`Fido`), each with one
blank-node-valued statement. -/
def c3_g : Graph :=
  [⟨c3_Cat, rdf_type, owl_Class⟩,
   ⟨c3_Cat, c3_note, .bnode "y"⟩,
   ⟨c3_Fido, rdf_type, c3_Dog⟩,
   ⟨c3_Fido, c3_likes, .bnode "y"⟩]

set_option maxRecDepth 100000 in
/-- C3 witness: the blank-node asymmetry on a concrete graph — the class
subject's blank-valued statement lands in the data bucket, the individual
subject's in the object bucket. -/
theorem claim_C3_witness :
    c3_note ∈ dataListOf (list_properties_by_concept c3_g).1 c3_Cat ∧
      c3_likes ∈ objListOf (list_properties_by_individual c3_g).individual_properties c3_Fido := by
  constructor
  · exact (((claim_C3_property_bucket_rules c3_g ⟨c3_Cat, c3_note, .bnode "y"⟩
      (by decide)).2 (by decide)).1 (by decide)).1 (by decide)
  · exact (((claim_C3_property_bucket_rules c3_g ⟨c3_Fido, c3_likes, .bnode "y"⟩
      (by decide)).2 (by decide)).1 (by decide)).2 (by decide)

/-! Aggregator (`calculate_totals_and_densities`). -/

/-- Result record of `calculate_totals_and_densities`. -/
structure TotalsDensities where
  total_object_properties : Nat
  total_data_annotation_properties : Nat
  total_object_properties_unique : Nat
  total_data_annotation_properties_unique : Nat
  property_density : ℚ
  object_density : ℚ
  data_annotation_density : ℚ
deriving Repr

/-- `calculate_totals_and_densities(concept_properties, g, n_classes)`
from `src/main.py`: unique counts are cardinalities of the sets
accumulated over all subjects' lists (element-wise `add` for the object
properties, `update` for the data/annotation properties), totals are
sums of list lengths, densities are guarded ratios.  The `g` parameter
is taken (and ignored) exactly as in the source. -/
def calculate_totals_and_densities (concept_properties : PropDict) (g : Graph)
    (n_classes : Nat) : TotalsDensities :=
  let all_object_properties : Finset Node :=
    concept_properties.foldl
      (fun a e => e.2.object_properties.foldl (fun a prop => insert prop a) a) ∅
  let all_data : Finset Node :=
    concept_properties.foldl
      (fun a e => a ∪ e.2.data_annotation_properties.toFinset) ∅
  let total_object_properties_unique := all_object_properties.card
  let total_data_unique := all_data.card
  let total_object_properties :=
    (concept_properties.map (fun e => e.2.object_properties.length)).sum
  let total_data :=
    (concept_properties.map (fun e => e.2.data_annotation_properties.length)).sum
  let property_density : ℚ :=
    if n_classes > 0 then
      ((total_object_properties + total_data : Nat) : ℚ) / (n_classes : ℚ)
    else 0
  let object_density : ℚ :=
    if n_classes > 0 then (total_object_properties : ℚ) / (n_classes : ℚ) else 0
  let data_annotation_density : ℚ :=
    if n_classes > 0 then (total_data : ℚ) / (n_classes : ℚ) else 0
  ⟨total_object_properties, total_data, total_object_properties_unique,
   total_data_unique, property_density, object_density, data_annotation_density⟩

theorem foldl_insert_eq {β : Type} [DecidableEq β] (l : List β) (acc : Finset β) :
    l.foldl (fun a x => insert x a) acc = acc ∪ l.toFinset := by
  induction l generalizing acc with
  | nil => simp
  | cons x xs ih => simp [List.foldl_cons, ih, Finset.insert_union, Finset.union_insert]

theorem card_foldl_union_le {α β : Type} [DecidableEq β] (F : α → Finset β)
    (l : List α) (acc : Finset β) :
    (l.foldl (fun a e => a ∪ F e) acc).card ≤
      acc.card + (l.map (fun e => (F e).card)).sum := by
  induction l generalizing acc with
  | nil => simp
  | cons x xs ih =>
    have h1 := ih (acc ∪ F x)
    have h2 := Finset.card_union_le acc (F x)
    simp only [List.foldl_cons, List.map_cons, List.sum_cons]
    omega

theorem foldl_inner_insert_eq (cps : PropDict) (acc : Finset Node) :
    cps.foldl (fun a e => e.2.object_properties.foldl (fun a prop => insert prop a) a) acc =
      cps.foldl (fun a e => a ∪ e.2.object_properties.toFinset) acc := by
  induction cps generalizing acc with
  | nil => rfl
  | cons e rest ih => simp only [List.foldl_cons, foldl_insert_eq, ih]

/-- C7: the unique property counts never exceed the corresponding total
property counts — a set accumulated from the concatenation of the lists
has at most as many elements as the sum of the list lengths. -/
theorem claim_C7_unique_le_total (concept_properties : PropDict) (g : Graph) (n : Nat) :
    (calculate_totals_and_densities concept_properties g n).total_object_properties_unique ≤
      (calculate_totals_and_densities concept_properties g n).total_object_properties ∧
    (calculate_totals_and_densities concept_properties g n).total_data_annotation_properties_unique ≤
      (calculate_totals_and_densities concept_properties g n).total_data_annotation_properties := by
  constructor
  · have hdef1 :
        (calculate_totals_and_densities concept_properties g n).total_object_properties_unique =
          (concept_properties.foldl
            (fun (a : Finset Node) (e : Node × PropBuckets) =>
              e.2.object_properties.foldl (fun a prop => insert prop a) a)
            ∅).card := rfl
    have hdef2 :
        (calculate_totals_and_densities concept_properties g n).total_object_properties =
          (concept_properties.map (fun e => e.2.object_properties.length)).sum := rfl
    rw [hdef1, hdef2, foldl_inner_insert_eq]
    have h := card_foldl_union_le
      (fun e : Node × PropBuckets => e.2.object_properties.toFinset) concept_properties ∅
    simp only [Finset.card_empty, Nat.zero_add] at h
    refine le_trans h ?_
    apply List.sum_le_sum
    intro e he
    exact List.toFinset_card_le _
  · have hdef1 :
        (calculate_totals_and_densities concept_properties g n).total_data_annotation_properties_unique =
          (concept_properties.foldl
            (fun (a : Finset Node) (e : Node × PropBuckets) =>
              a ∪ e.2.data_annotation_properties.toFinset) ∅).card := rfl
    have hdef2 :
        (calculate_totals_and_densities concept_properties g n).total_data_annotation_properties =
          (concept_properties.map (fun e => e.2.data_annotation_properties.length)).sum := rfl
    rw [hdef1, hdef2]
    have h := card_foldl_union_le
      (fun e : Node × PropBuckets => e.2.data_annotation_properties.toFinset)
      concept_properties ∅
    simp only [Finset.card_empty, Nat.zero_add] at h
    refine le_trans h ?_
    apply List.sum_le_sum
    intro e he
    exact List.toFinset_card_le _

/-- C4: every density metric (class densities, individual densities,
average subclasses per class) is non-negative and is exactly `0` when its
denominator is `0`.  The guarded ratios are embedded in `ℚ`, where every
value is finite and no NaN exists; the `if denominator > 0` guards of the
source mean no division by zero is ever attempted. -/
theorem claim_C4_density_guards (cps : PropDict) (g : Graph) (n : Nat)
    (g2 : Graph) (n2 : Nat) :
    (0 ≤ (calculate_totals_and_densities cps g n).property_density ∧
     0 ≤ (calculate_totals_and_densities cps g n).object_density ∧
     0 ≤ (calculate_totals_and_densities cps g n).data_annotation_density) ∧
    (n = 0 →
      (calculate_totals_and_densities cps g n).property_density = 0 ∧
      (calculate_totals_and_densities cps g n).object_density = 0 ∧
      (calculate_totals_and_densities cps g n).data_annotation_density = 0) ∧
    (0 ≤ (list_properties_by_individual g2).property_density_by_individual ∧
     0 ≤ (list_properties_by_individual g2).object_properties_per_individual ∧
     0 ≤ (list_properties_by_individual g2).data_properties_per_individual) ∧
    ((lpbi_individuals g2).card = 0 →
      (list_properties_by_individual g2).property_density_by_individual = 0 ∧
      (list_properties_by_individual g2).object_properties_per_individual = 0 ∧
      (list_properties_by_individual g2).data_properties_per_individual = 0) ∧
    (0 ≤ (count_subclasses_and_average g2 n2).average_subclasses_per_class ∧
     (n2 = 0 →
       (count_subclasses_and_average g2 n2).average_subclasses_per_class = 0)) := by
  refine ⟨⟨?_, ?_, ?_⟩, ?_, ⟨?_, ?_, ?_⟩, ?_, ?_, ?_⟩
  · simp only [calculate_totals_and_densities]
    split
    · positivity
    · exact le_refl 0
  · simp only [calculate_totals_and_densities]
    split
    · positivity
    · exact le_refl 0
  · simp only [calculate_totals_and_densities]
    split
    · positivity
    · exact le_refl 0
  · intro h
    subst h
    refine ⟨?_, ?_, ?_⟩ <;> simp [calculate_totals_and_densities]
  · simp only [list_properties_by_individual]
    apply add_nonneg <;>
    · split
      · positivity
      · exact le_refl 0
  · simp only [list_properties_by_individual]
    split
    · positivity
    · exact le_refl 0
  · simp only [list_properties_by_individual]
    split
    · positivity
    · exact le_refl 0
  · intro h
    refine ⟨?_, ?_, ?_⟩ <;> simp [list_properties_by_individual, h]
  · simp only [count_subclasses_and_average]
    split
    · positivity
    · exact le_refl 0
  · intro h
    subst h
    simp [count_subclasses_and_average]

/-- C4 witness: on the empty document every guarded ratio is `0`. -/
theorem claim_C4_witness :
    (calculate_totals_and_densities [] [] 0).property_density = 0 ∧
      (list_properties_by_individual []).property_density_by_individual = 0 ∧
      (count_subclasses_and_average [] 0).average_subclasses_per_class = 0 := by
  obtain ⟨-, h2, -, h4, h5⟩ := claim_C4_density_guards [] [] 0 [] 0
  exact ⟨(h2 rfl).1, (h4 (by decide)).1, h5.2 rfl⟩

/-- C9: Property Density by Individual is computed as exactly the sum of
Object Density by Individual and Data/Annotation Density by Individual,
and in the zero-individual case all three are `0` (so the identity also
holds there). -/
theorem claim_C9_property_density_is_sum (g : Graph) :
    (list_properties_by_individual g).property_density_by_individual =
      (list_properties_by_individual g).object_properties_per_individual +
        (list_properties_by_individual g).data_properties_per_individual ∧
    ((lpbi_individuals g).card = 0 →
      ((list_properties_by_individual g).property_density_by_individual = 0 ∧
       (list_properties_by_individual g).object_properties_per_individual = 0 ∧
       (list_properties_by_individual g).data_properties_per_individual = 0)) := by
  constructor
  · rfl
  · intro h
    refine ⟨?_, ?_, ?_⟩ <;> simp [list_properties_by_individual, h]

/-- C9 witness: the zero-individual case on the empty graph. -/
theorem claim_C9_witness :
    (list_properties_by_individual []).property_density_by_individual = 0 ∧
      (list_properties_by_individual []).object_properties_per_individual = 0 ∧
      (list_properties_by_individual []).data_properties_per_individual = 0 :=
  (claim_C9_property_density_is_sum []).2 (by decide)

/-! Textual metrics, explicit property counts, and the per-document
report (`process_ttl_file` and the `__main__` batch loop). -/

/-- A word character of the `\b\w+\b` tokenizer (ASCII alphanumeric or
underscore; the claims do not depend on the Unicode extension of `\w`). -/
def isWordChar (c : Char) : Bool := c.isAlphanum || c = '_'

/-- `re.findall(r'\b\w+\b', s)`: the maximal runs of word characters. -/
def tokenize (s : String) : List String :=
  (s.split (fun c => !isWordChar c)).filter (fun w => !w.isEmpty)

/-- Result record of `extract_textual_metrics`. -/
structure TextualMetrics where
  total_words_in_literals : Nat
  average_words_per_literal : ℚ
  longest_literal_words : Nat
  shortest_literal_words : Nat
  vocabulary_size_in_literals : Nat
deriving Repr

/-- `extract_textual_metrics(g)` from `src/main.py`: tokenize every
literal object; all five metrics are `0` for a literal-free graph.
`max`/`min` of the nonempty counts list are embedded as `foldl max 0`
(counts are naturals) and `minimum?.getD 0`. -/
def extract_textual_metrics (g : Graph) : TextualMetrics :=
  let literals := (g.filter (fun t => t.o.isLiteral)).map (fun t => t.o)
  if literals.length = 0 then ⟨0, 0, 0, 0, 0⟩
  else
    let word_lists := literals.map (fun l => tokenize l.toStr)
    let words := word_lists.flatten
    let word_counts := word_lists.map (fun l => l.length)
    let total_words := words.length
    ⟨total_words, (total_words : ℚ) / (literals.length : ℚ),
     word_counts.foldl max 0, (word_counts.min?).getD 0,
     ((words.map (fun w => w.toLower)).toFinset).card⟩

/-- Result record of `calculate_global_text_metrics`. -/
structure GlobalTextMetrics where
  total_words_in_raw_file : Nat
  vocabulary_size_in_raw_file : Nat
deriving Repr

/-- `calculate_global_text_metrics(file_path)` from `src/main.py`, on the
raw text of the document. -/
def calculate_global_text_metrics (raw_text : String) : GlobalTextMetrics :=
  let words := tokenize raw_text
  ⟨words.length, ((words.map (fun w => w.toLower)).toFinset).card⟩

/-- `count_annotation_properties(g)`. -/
def count_annotation_properties (g : Graph) : Nat :=
  (g.filter (fun t => decide (t.p = rdf_type ∧ t.o = owl_AnnotationProperty))).length

/-- `count_datatype_properties(g)`. -/
def count_datatype_properties (g : Graph) : Nat :=
  (g.filter (fun t => decide (t.p = rdf_type ∧ t.o = owl_DatatypeProperty))).length

/-- `count_object_properties(g)`. -/
def count_object_properties (g : Graph) : Nat :=
  (g.filter (fun t => decide (t.p = rdf_type ∧ t.o = owl_ObjectProperty))).length

/-- A document: file name and raw text.  Parsing it into a graph is the
external Triple Store Adapter capability. -/
structure Doc where
  name : String
  text : String
deriving DecidableEq, Repr

/-- The flat per-document record assembled by `process_ttl_file`, one
field per output column. -/
structure MetricsRecord where
  file_name : String
  total_triples : Nat
  total_classes : Nat
  total_individuals : Nat
  total_object_properties : Nat
  unique_object_properties : Nat
  object_properties_defined : Nat
  total_data_annotation_properties : Nat
  unique_data_annotation_properties : Nat
  property_density_by_class : ℚ
  object_density_by_class : ℚ
  data_annotation_density_by_class : ℚ
  property_density_by_individual : ℚ
  object_density_by_individual : ℚ
  data_annotation_density_by_individual : ℚ
  data_properties_defined : Nat
  annotation_properties_defined : Nat
  total_subclasses : Nat
  average_subclasses_per_class : ℚ
  total_words_in_literals : Nat
  average_words_per_literal : ℚ
  longest_literal_words : Nat
  shortest_literal_words : Nat
  vocabulary_size_in_literals : Nat
  total_words_in_raw_file : Nat
  vocabulary_size_in_raw_file : Nat
deriving DecidableEq, Repr

/-- `process_ttl_file(file_path)` from `src/main.py`.  The `try/except`
around the body catches the only fallible step, parsing (`parse` here, an
explicit argument; the source parses the same file three times, which
under a deterministic parser yields the same graph, received once here);
on failure the function returns no record at all.  Everything after a
successful parse is total, so a parsed document always yields the full
record. -/
def process_ttl_file (parse : Doc → Option Graph) (d : Doc) : Option MetricsRecord :=
  match parse d with
  | none => none
  | some g =>
    let total_triples := g.length
    let cp := list_properties_by_concept g
    let concept_properties := cp.1
    let classes := cp.2
    let individuals_density := list_properties_by_individual g
    let n_classes := classes.length
    let td := calculate_totals_and_densities concept_properties g n_classes
    let sub := count_subclasses_and_average g n_classes
    let tm := extract_textual_metrics g
    let gm := calculate_global_text_metrics d.text
    some ⟨d.name, total_triples, n_classes, count_individuals g,
      td.total_object_properties, td.total_object_properties_unique,
      count_object_properties g,
      td.total_data_annotation_properties, td.total_data_annotation_properties_unique,
      td.property_density, td.object_density, td.data_annotation_density,
      individuals_density.property_density_by_individual,
      individuals_density.object_properties_per_individual,
      individuals_density.data_properties_per_individual,
      count_datatype_properties g, count_annotation_properties g,
      sub.total_subclasses, sub.average_subclasses_per_class,
      tm.total_words_in_literals, tm.average_words_per_literal,
      tm.longest_literal_words, tm.shortest_literal_words,
      tm.vocabulary_size_in_literals,
      gm.total_words_in_raw_file, gm.vocabulary_size_in_raw_file⟩

/-- Body of the `__main__` loop for one directory entry: process files
with the `.ttl` extension, append the record to the table when one is
produced (`if metrics:`, and the record dict is never empty), skip the
document otherwise. -/
def batch_step (parse : Doc → Option Graph) (df : List MetricsRecord) (d : Doc) :
    List MetricsRecord :=
  if d.name.endsWith ".ttl" then
    match process_ttl_file parse d with
    | some metrics => df ++ [metrics]
    | none => df
  else df

/-- The `__main__` batch: fold over the directory listing, starting from
the empty table. -/
def runBatch (parse : Doc → Option Graph) (docs : List Doc) : List MetricsRecord :=
  docs.foldl (batch_step parse) []

theorem foldl_batch_step (parse : Doc → Option Graph) (docs : List Doc)
    (acc : List MetricsRecord) :
    docs.foldl (batch_step parse) acc =
      acc ++ (docs.filter (fun x => x.name.endsWith ".ttl")).filterMap
        (process_ttl_file parse) := by
  induction docs generalizing acc with
  | nil => simp
  | cons d ds ih =>
    simp only [List.foldl_cons]
    by_cases ht : d.name.endsWith ".ttl" = true
    · cases hp : process_ttl_file parse d with
      | some m =>
        have hb : batch_step parse acc d = acc ++ [m] := by
          simp [batch_step, ht, hp]
        rw [hb, ih]
        simp [List.filter_cons, ht, List.filterMap_cons, hp]
      | none =>
        have hb : batch_step parse acc d = acc := by
          simp [batch_step, ht, hp]
        rw [hb, ih]
        simp [List.filter_cons, ht, List.filterMap_cons, hp]
    · have hb : batch_step parse acc d = acc := by
        simp [batch_step, ht]
      rw [hb, ih]
      simp [List.filter_cons, ht]

/-- C6: a document whose parse fails yields no record at all (never a
partial one), is excluded from the output table, and the batch still
contains exactly the records of the other successfully processed `.ttl`
documents, in input order.  (The accompanying `print` of the file name
and error is an I/O side effect outside the embedding.) -/
theorem claim_C6_failed_doc_excluded (parse : Doc → Option Graph) (docs : List Doc)
    (d : Doc) (h : parse d = none) :
    process_ttl_file parse d = none ∧
      runBatch parse docs =
        (docs.filter (fun x => x.name.endsWith ".ttl")).filterMap
          (process_ttl_file parse) := by
  constructor
  · simp [process_ttl_file, h]
  · rw [runBatch, foldl_batch_step]
    simp

/-- C6 witness: a batch with one unparseable document produces the empty
table and no record for the document. -/
theorem claim_C6_witness :
    process_ttl_file (fun _ => none) ⟨"bad.ttl", ""⟩ = none ∧
      runBatch (fun _ => none) [⟨"bad.ttl", ""⟩] =
        (([⟨"bad.ttl", ""⟩] : List Doc).filter (fun x => x.name.endsWith ".ttl")).filterMap
          (process_ttl_file (fun _ => none)) :=
  claim_C6_failed_doc_excluded (fun _ => none) [⟨"bad.ttl", ""⟩] ⟨"bad.ttl", ""⟩ rfl
